import Mathlib

/-!
Verification of the PDF black/white converter core (`main.py`).

Strings are modelled as Lean `String`s (lists of characters); Python
integers as `Int`; byte streams as `List Nat`; the filesystem and the
PDF/image libraries as oracle functions recorded in a `World` structure.
Each definition is a shallow embedding of the corresponding Python
function, keeping the source's control flow and evaluation order.
-/

namespace PdfBW

/-- Models Python `str.strip()` on a character list: drop leading and
trailing whitespace. -/
def stripChars (l : List Char) : List Char :=
  ((l.dropWhile Char.isWhitespace).reverse.dropWhile Char.isWhitespace).reverse

/-- Models Python `str.split(c)` for a one-character separator: always
returns `count(c) + 1` pieces, so the result is never empty. -/
def splitOnChar (c : Char) : List Char → List (List Char)
  | [] => [[]]
  | x :: xs =>
    let r := splitOnChar c xs
    if x = c then [] :: r
    else
      match r with
      | [] => [[x]]
      | h :: t => (x :: h) :: t

/-- Value of a digit string, most significant digit first. -/
def decVal (l : List Char) : Nat :=
  l.foldl (fun a c => a * 10 + (c.toNat - '0'.toNat)) 0

/-- Digit-string parser: succeeds on a nonempty all-digit list. -/
def digitsToNat (l : List Char) : Option Nat :=
  if l ≠ [] ∧ l.all Char.isDigit then some (decVal l) else none

/-- Models Python `int(s)` on an already-stripped string: an optional
sign followed by at least one decimal digit; anything else raises
`ValueError`, modelled as `none`. -/
def pyInt (l : List Char) : Option Int :=
  match l with
  | '-' :: rest => (digitsToNat rest).map (fun n => -(n : Int))
  | '+' :: rest => (digitsToNat rest).map (fun n => (n : Int))
  | _ => (digitsToNat l).map (fun n => (n : Int))

/-- Models Python `range(a, b)` over integers, as a list. -/
def pyRange (a b : Int) : List Int :=
  (List.range (b - a).toNat).map (fun (i : Nat) => a + (i : Int))

/-- Insert an integer into a strictly ascending list, keeping it
strictly ascending (duplicates collapse). -/
def insertUnique (x : Int) : List Int → List Int
  | [] => [x]
  | y :: ys =>
    if x < y then x :: y :: ys
    else if x = y then y :: ys
    else y :: insertUnique x ys

/-- Models Python `sorted(set(l))`: strictly ascending deduplicated
enumeration of the elements of `l`. -/
def dedupSort (l : List Int) : List Int := l.foldr insertUnique []

/-- One iteration of the `for part in parts` loop of
`parse_page_range` (main.py lines 71-89): a dash term extends `pages`
with the clamped range (propagating `int()` errors as `none`), a
two-dash or longer term is skipped, and a singleton is appended when it
parses and lies in `[1, total_pages]`, else dropped. -/
def parseTerm (total_pages : Nat) (pages : List Int) (rawPart : List Char) :
    Option (List Int) :=
  if '-' ∈ stripChars rawPart then
    match splitOnChar '-' (stripChars rawPart) with
    | [s0, e0] =>
      match (if stripChars s0 = [] then some 1 else pyInt (stripChars s0)) with
      | none => none
      | some start0 =>
        match (if stripChars e0 = [] then some ((total_pages : Int))
               else pyInt (stripChars e0)) with
        | none => none
        | some end0 =>
          some (pages ++ pyRange (max 1 start0 - 1) (min (total_pages : Int) end0))
    | _ => some pages
  else
    if stripChars rawPart = [] then some pages
    else
      match pyInt (stripChars rawPart) with
      | none => some pages
      | some page =>
        if 1 ≤ page ∧ page ≤ (total_pages : Int) then some (pages ++ [page - 1])
        else some pages

/-- The `for` loop of `parse_page_range` over all comma-separated
parts; a `none` from `parseTerm` models an uncaught exception aborting
the loop. -/
def foldTerms (total_pages : Nat) (pages : List Int) :
    List (List Char) → Option (List Int)
  | [] => some pages
  | part :: rest =>
    match parseTerm total_pages pages part with
    | none => none
    | some pages' => foldTerms total_pages pages' rest

/-- Embedding of `parse_page_range` (main.py lines 65-91). Returns
`none` when the Python function would raise. -/
def parse_page_range (page_range_str : String) (total_pages : Nat) :
    Option (List Int) :=
  if stripChars page_range_str.data = [] then
    some ((List.range total_pages).map (fun (i : Nat) => (i : Int)))
  else
    match foldTerms total_pages [] (splitOnChar ',' page_range_str.data) with
    | none => none
    | some pages => some (dedupSort pages)

/-- Decidable safety predicate for one comma-separated term: `true`
unless the term is a two-piece dash range one of whose nonempty pieces
fails integer parsing (the only place `parse_page_range` can raise). -/
def termSafe (rawPart : List Char) : Bool :=
  if '-' ∈ stripChars rawPart then
    match splitOnChar '-' (stripChars rawPart) with
    | [s0, e0] =>
      ((stripChars s0).isEmpty || (pyInt (stripChars s0)).isSome) &&
      ((stripChars e0).isEmpty || (pyInt (stripChars e0)).isSome)
    | _ => true
  else true

/-- Per-pixel bitonal map of `convert_pdf_to_bw` for mode `bw`
(main.py line 151): the lambda of `gray_img.point`, black (0) below the
threshold, white (255) at or above it. -/
def bw_point (threshold : Nat) (x : Nat) : Nat :=
  if x < threshold then 0 else 255

/-- External effects visible to one `convert_pdf_to_bw` run: whether
the input exists, `fitz.open`'s outcome (page count, or `none` for an
exception), the combined rasterize/transform/encode result per page
index, `img2pdf.convert`, and the destination file's current contents
(`none` when absent). -/
structure World where
  inputExists : Bool
  openDoc : Option Nat
  encodePage : Nat → Option (List Nat)
  assemble : List (List Nat) → Option (List Nat)
  dest : Option (List Nat)

/-- Observable outcome of one `convert_pdf_to_bw` run: the returned
success flag, the destination file's contents afterwards, and how many
pages were submitted to rasterization. -/
structure ConvResult where
  success : Bool
  dest : Option (List Nat)
  pagesRendered : Nat
deriving DecidableEq

/-- The resolved page list of `convert_pdf_to_bw` (main.py lines
123-128): full document when no range was supplied, otherwise the
caller's indices filtered to those below the page count. -/
def resolvePages (total_pages : Nat) : Option (List Nat) → List Nat
  | none => List.range total_pages
  | some l => l.filter (fun p => p < total_pages)

/-- The per-page loop of `convert_pdf_to_bw` (main.py lines 139-159):
encoded streams collected in order, aborted by the first page whose
rasterize/transform/encode raises; also counts pages submitted to
rendering. -/
def processPages (w : World) : List Nat → Option (List (List Nat)) × Nat
  | [] => (some [], 0)
  | p :: rest =>
    match w.encodePage p with
    | none => (none, 1)
    | some bytes =>
      let (r, k) := processPages w rest
      (r.map (fun imgs => bytes :: imgs), k + 1)

/-- Embedding of `convert_pdf_to_bw` (main.py lines 93-184). Faithful
to the write sequence of lines 162-163: `open(output_pdf, "wb")`
truncates the destination to empty before `img2pdf.convert` is
evaluated, so an assembly exception leaves an empty file behind, while
a successful conversion replaces it with the assembled bytes; any
exception before that point leaves the destination untouched, and the
outer `except` turns every exception into a `False` return. -/
def convert_pdf_to_bw (w : World) (page_range : Option (List Nat)) : ConvResult :=
  if w.inputExists = false then ⟨false, w.dest, 0⟩
  else
    match w.openDoc with
    | none => ⟨false, w.dest, 0⟩
    | some total_pages =>
      let pr := resolvePages total_pages page_range
      if pr = [] then ⟨false, w.dest, 0⟩
      else
        match processPages w pr with
        | (none, k) => ⟨false, w.dest, k⟩
        | (some imgs, k) =>
          match w.assemble imgs with
          | none => ⟨false, some [], k⟩
          | some out => ⟨true, some out, k⟩

/-- Index of the last occurrence of a character, or `none`; models
Python `str.rfind` (which returns `-1` when absent). -/
def rfindIdx (c : Char) : List Char → Option Nat
  | [] => none
  | x :: xs =>
    match rfindIdx c xs with
    | some i => some (i + 1)
    | none => if x = c then some 0 else none

/-- Models Python `str.rstrip('/')`. -/
def rstripSlash (l : List Char) : List Char :=
  (l.reverse.dropWhile (fun c => c = '/')).reverse

/-- Models `posixpath.split`: split after the last slash, then strip
trailing slashes from the head unless it is empty or all slashes. -/
def os_path_split (p : List Char) : List Char × List Char :=
  match rfindIdx '/' p with
  | none => ([], p)
  | some i =>
    let head := p.take (i + 1)
    let tail := p.drop (i + 1)
    if head ≠ [] ∧ ¬ head.all (fun c => c = '/') then (rstripSlash head, tail)
    else (head, tail)

/-- Models `posixpath.splitext`: split before the last dot of the last
component, unless that component consists only of leading dots up to
that point. -/
def os_path_splitext (p : List Char) : List Char × List Char :=
  let sepIndex : Int := match rfindIdx '/' p with | none => -1 | some i => (i : Int)
  let dotIndex : Int := match rfindIdx '.' p with | none => -1 | some i => (i : Int)
  if sepIndex < dotIndex then
    let fi := (sepIndex + 1).toNat
    let di := dotIndex.toNat
    if ((p.drop fi).take (di - fi)).any (fun c => c ≠ '.') then
      (p.take di, p.drop di)
    else (p, [])
  else (p, [])

/-- Models two-argument `posixpath.join`. -/
def os_path_join (a b : List Char) : List Char :=
  if b.head? = some '/' then b
  else if a = [] ∨ a.getLast? = some '/' then a ++ b
  else a ++ '/' :: b

/-- Embedding of `PDFConverterApp.generate_output_path` (main.py lines
534-549): directory from the output-directory field (falling back to
the input's directory when blank after stripping), basename split into
stem and extension, optional suffix and optional `_timestamp` appended
to the stem. -/
def generate_output_path (outputDirField suffixField : List Char)
    (useTimestamp : Bool) (timestamp : List Char) (input : List Char) :
    List Char :=
  let output_dir :=
    if stripChars outputDirField = [] then (os_path_split input).1
    else stripChars outputDirField
  let filename := (os_path_split input).2
  let se := os_path_splitext filename
  let base := se.1
  let ext := se.2
  let sfx := stripChars suffixField
  let base := if sfx ≠ [] then base ++ sfx else base
  let base := if useTimestamp then base ++ '_' :: timestamp else base
  os_path_join output_dir (base ++ ext)

/-- Overwrite policy, from the `overwrite` setting. -/
inductive OverwritePolicy
  | ask
  | overwrite
  | skip
deriving DecidableEq

/-- Per-file outcome recorded by the batch driver. -/
inductive FileOutcome
  | skipped
  | converted (success : Bool)
deriving DecidableEq

/-- External collaborators of the batch driver
(`PDFConverterApp.convert_next_file` / `run_conversion`): the output
settings feeding `generate_output_path`, the overwrite policy, the
`os.path.exists` oracle, the answer to the ask-dialog per output path,
and the success flag of a full `convert_pdf_to_bw` run per
(input, output) pair. -/
structure BatchEnv where
  outputDirField : List Char
  suffixField : List Char
  useTimestamp : Bool
  timestamp : List Char
  policy : OverwritePolicy
  outputExists : List Char → Bool
  askYes : List Char → Bool
  runPipeline : List Char → List Char → Bool

/-- Output path the batch driver computes for one input file. -/
def batchOutputPath (env : BatchEnv) (input : List Char) : List Char :=
  generate_output_path env.outputDirField env.suffixField env.useTimestamp
    env.timestamp input

/-- Outcome of the batch driver for a single input file: skipped when
the output exists and the policy (or a declined ask-dialog) says so,
otherwise the pipeline's result. -/
def fileOutcome (env : BatchEnv) (input : List Char) : FileOutcome :=
  let output := batchOutputPath env input
  if env.outputExists output then
    match env.policy with
    | .ask =>
      if env.askYes output then .converted (env.runPipeline input output)
      else .skipped
    | .skip => .skipped
    | .overwrite => .converted (env.runPipeline input output)
  else .converted (env.runPipeline input output)

/-- Embedding of the `convert_next_file` / `run_conversion` loop
(main.py lines 487-532 and 551-570), sequentialized: per-file outcomes
in request order, plus the number of `convert_pdf_to_bw` invocations.
`run_conversion` increments `current_file_index` and re-enters
`convert_next_file` whether or not the pipeline succeeded, and the
skip paths do the same without starting a pipeline. -/
def convert_next_file (env : BatchEnv) :
    List (List Char) → List FileOutcome × Nat
  | [] => ([], 0)
  | input :: rest =>
    let output := batchOutputPath env input
    let skipThis :=
      if env.outputExists output then
        match env.policy with
        | .ask => !env.askYes output
        | .skip => true
        | .overwrite => false
      else false
    let r := convert_next_file env rest
    if skipThis then (FileOutcome.skipped :: r.1, r.2)
    else (FileOutcome.converted (env.runPipeline input output) :: r.1, r.2 + 1)


/-- Claim C2, counterexample: the spec's first worked example is wrong
for the code — `parse_page_range("1-3,5", 10)` maps the 1-based
singleton `5` to the 0-based index `4`, so the result is `[0,1,2,4]`,
not `[0,1,2,5]`. -/
theorem parse_page_range_example_one_refuted :
    ¬ parse_page_range "1-3,5" 10 = some [0, 1, 2, 5] := by decide

/-- Claim C2 (amended): `parse_page_range("1-3,5", 10)` returns
`[0,1,2,4]`; the other three worked examples hold as the spec states
them: `parse_page_range("8-20", 10) = [7,8,9]`,
`parse_page_range("0,-3", 5) = [0,1,2]`, and
`parse_page_range("abc,2", 5) = [1]`. -/
theorem parse_page_range_worked_examples :
    parse_page_range "1-3,5" 10 = some [0, 1, 2, 4] ∧
    parse_page_range "8-20" 10 = some [7, 8, 9] ∧
    parse_page_range "0,-3" 5 = some [0, 1, 2] ∧
    parse_page_range "abc,2" 5 = some [1] := by decide

/-- Claim C3, counterexample: `parse_page_range` does not always
return normally — a dash-delimited term whose start fails integer
parsing, such as `"a-3"`, raises an uncaught `ValueError` (the
`try/except` at main.py lines 84-89 guards only singleton terms). -/
theorem parse_page_range_raises_on_bad_range_term :
    parse_page_range "a-3" 5 = none := by decide

/-- Auxiliary: a term satisfying `termSafe` never makes `parseTerm`
raise. -/
theorem parseTerm_isSome_of_termSafe (total_pages : Nat) (pages : List Int)
    (part : List Char) (h : termSafe part = true) :
    (parseTerm total_pages pages part).isSome := by
  unfold termSafe at h
  unfold parseTerm
  by_cases hdash : '-' ∈ stripChars part
  · rw [if_pos hdash] at h ⊢
    cases hsplit : splitOnChar '-' (stripChars part) with
    | nil => simp
    | cons s0 t =>
      cases t with
      | nil => simp
      | cons e0 t2 =>
        cases t2 with
        | cons u v => simp
        | nil =>
          rw [hsplit] at h
          simp only [Bool.and_eq_true, Bool.or_eq_true, List.isEmpty_iff] at h
          obtain ⟨h1, h2⟩ := h
          dsimp only
          by_cases hs0 : stripChars s0 = []
          · rw [if_pos hs0]
            by_cases he0 : stripChars e0 = []
            · rw [if_pos he0]; simp
            · rw [if_neg he0]
              rcases h2 with h2 | h2
              · exact absurd h2 he0
              · obtain ⟨v0, hv0⟩ := Option.isSome_iff_exists.mp h2
                rw [hv0]; simp
          · rw [if_neg hs0]
            rcases h1 with h1 | h1
            · exact absurd h1 hs0
            · obtain ⟨v0, hv0⟩ := Option.isSome_iff_exists.mp h1
              rw [hv0]
              by_cases he0 : stripChars e0 = []
              · rw [if_pos he0]; simp
              · rw [if_neg he0]
                rcases h2 with h2 | h2
                · exact absurd h2 he0
                · obtain ⟨v1, hv1⟩ := Option.isSome_iff_exists.mp h2
                  rw [hv1]; simp
  · rw [if_neg hdash]
    by_cases hemp : stripChars part = []
    · rw [if_pos hemp]; simp
    · rw [if_neg hemp]
      cases hp : pyInt (stripChars part) with
      | none => simp
      | some page =>
        dsimp only
        by_cases hrange : 1 ≤ page ∧ page ≤ (total_pages : Int)
        · rw [if_pos hrange]; simp
        · rw [if_neg hrange]; simp

/-- Auxiliary: the term loop returns normally when every term is
safe. -/
theorem foldTerms_isSome (total_pages : Nat) (parts : List (List Char))
    (hsafe : ∀ part ∈ parts, termSafe part = true) :
    ∀ pages : List Int, (foldTerms total_pages pages parts).isSome := by
  induction parts with
  | nil => intro pages; simp [foldTerms]
  | cons part rest ih =>
    intro pages
    unfold foldTerms
    have h1 : (parseTerm total_pages pages part).isSome :=
      parseTerm_isSome_of_termSafe total_pages pages part
        (hsafe part (List.mem_cons_self part rest))
    obtain ⟨pages', hp⟩ := Option.isSome_iff_exists.mp h1
    rw [hp]
    exact ih (fun q hq => hsafe q (List.mem_cons_of_mem part hq)) pages'

/-- Claim C3 (amended): malformed or out-of-range singleton terms and
dash terms that do not split into exactly two pieces are silently
dropped, and the remaining terms are still resolved; but a
two-piece dash term with a nonempty piece that fails integer parsing
raises an error to the caller. Whenever every dash term's nonempty
pieces parse as integers, `parse_page_range` returns normally. -/
theorem parse_page_range_returns_normally (s : String) (total_pages : Nat)
    (hsafe : ∀ part ∈ splitOnChar ',' s.data, termSafe part = true) :
    (parse_page_range s total_pages).isSome := by
  unfold parse_page_range
  by_cases hs : stripChars s.data = []
  · rw [if_pos hs]; simp
  · rw [if_neg hs]
    have h := foldTerms_isSome total_pages (splitOnChar ',' s.data) hsafe []
    obtain ⟨pages, hp⟩ := Option.isSome_iff_exists.mp h
    rw [hp]
    simp

/-- Witness for C3's amended theorem at a concrete lenient input:
`"abc"` and `"0"` and `"99"` are dropped or clamped without any error
reaching the caller. -/
theorem parse_page_range_returns_normally_witness :
    (parse_page_range "abc,0,99,2-" 5).isSome :=
  parse_page_range_returns_normally "abc,0,99,2-" 5 (by decide)

/-- Claim C8: an empty or whitespace-only range expression resolves to
the full document, `[0, 1, ..., page_count - 1]`. -/
theorem parse_page_range_empty_full (s : String) (total_pages : Nat)
    (h : stripChars s.data = []) :
    parse_page_range s total_pages =
      some ((List.range total_pages).map (fun (i : Nat) => (i : Int))) := by
  unfold parse_page_range
  rw [if_pos h]

/-- Witness for C8 at the whitespace-only expression `"  "` and a
five-page document. -/
theorem parse_page_range_empty_full_witness :
    parse_page_range "  " 5 = some [0, 1, 2, 3, 4] :=
  (parse_page_range_empty_full "  " 5 (by decide)).trans (by decide)

/-- Auxiliary: membership in `insertUnique`. -/
theorem mem_insertUnique (x a : Int) (l : List Int) :
    a ∈ insertUnique x l ↔ a = x ∨ a ∈ l := by
  induction l with
  | nil => simp [insertUnique]
  | cons y ys ih =>
    unfold insertUnique
    by_cases h1 : x < y
    · rw [if_pos h1]
      simp only [List.mem_cons]
    · rw [if_neg h1]
      by_cases h2 : x = y
      · subst h2
        rw [if_pos rfl]
        simp only [List.mem_cons]
        tauto
      · rw [if_neg h2]
        simp only [List.mem_cons, ih]
        tauto

/-- Auxiliary: `insertUnique` preserves strict ascending order. -/
theorem pairwise_insertUnique (x : Int) (l : List Int)
    (h : l.Pairwise (· < ·)) : (insertUnique x l).Pairwise (· < ·) := by
  induction l with
  | nil => simp [insertUnique]
  | cons y ys ih =>
    rw [List.pairwise_cons] at h
    obtain ⟨hy, hys⟩ := h
    unfold insertUnique
    by_cases h1 : x < y
    · rw [if_pos h1]
      refine List.Pairwise.cons ?_ (List.Pairwise.cons hy hys)
      intro z hz
      rcases List.mem_cons.mp hz with rfl | hz'
      · exact h1
      · exact lt_trans h1 (hy z hz')
    · rw [if_neg h1]
      by_cases h2 : x = y
      · subst h2
        rw [if_pos rfl]
        exact List.Pairwise.cons hy hys
      · rw [if_neg h2]
        refine List.Pairwise.cons ?_ (ih hys)
        intro z hz
        rcases (mem_insertUnique x z ys).mp hz with rfl | hz'
        · omega
        · exact hy z hz'

/-- Auxiliary: `dedupSort` always yields a strictly ascending list. -/
theorem pairwise_dedupSort (l : List Int) :
    (dedupSort l).Pairwise (· < ·) := by
  induction l with
  | nil => simp [dedupSort]
  | cons x xs ih => exact pairwise_insertUnique x (dedupSort xs) ih

/-- Auxiliary: `dedupSort` neither adds nor removes elements. -/
theorem mem_dedupSort (a : Int) (l : List Int) :
    a ∈ dedupSort l ↔ a ∈ l := by
  induction l with
  | nil => simp [dedupSort]
  | cons x xs ih =>
    show a ∈ insertUnique x (dedupSort xs) ↔ _
    rw [mem_insertUnique]
    simp [ih]

/-- Auxiliary: elements produced by `pyRange a b` lie in `[a, b)`. -/
theorem mem_pyRange (a b x : Int) (h : x ∈ pyRange a b) : a ≤ x ∧ x < b := by
  unfold pyRange at h
  obtain ⟨i, hi, rfl⟩ := List.mem_map.mp h
  rw [List.mem_range] at hi
  omega

/-- Auxiliary: one loop iteration only appends indices inside
`[0, total_pages)`. -/
theorem parseTerm_bounds (total_pages : Nat) (pages res : List Int)
    (part : List Char)
    (hb : ∀ x ∈ pages, 0 ≤ x ∧ x < (total_pages : Int))
    (h : parseTerm total_pages pages part = some res) :
    ∀ x ∈ res, 0 ≤ x ∧ x < (total_pages : Int) := by
  unfold parseTerm at h
  by_cases hdash : '-' ∈ stripChars part
  · rw [if_pos hdash] at h
    cases hsplit : splitOnChar '-' (stripChars part) with
    | nil =>
      rw [hsplit] at h
      injection h with h
      subst h
      exact hb
    | cons s0 t =>
      cases t with
      | nil =>
        rw [hsplit] at h
        injection h with h
        subst h
        exact hb
      | cons e0 t2 =>
        cases t2 with
        | cons u v =>
          rw [hsplit] at h
          injection h with h
          subst h
          exact hb
        | nil =>
          rw [hsplit] at h
          dsimp only at h
          cases hs : (if stripChars s0 = [] then some 1
                      else pyInt (stripChars s0)) with
          | none => rw [hs] at h; exact absurd h (by simp)
          | some start0 =>
            rw [hs] at h
            dsimp only at h
            cases he : (if stripChars e0 = [] then some ((total_pages : Int))
                        else pyInt (stripChars e0)) with
            | none => rw [he] at h; exact absurd h (by simp)
            | some end0 =>
              rw [he] at h
              dsimp only at h
              injection h with h
              subst h
              intro x hx
              rcases List.mem_append.mp hx with hx' | hx'
              · exact hb x hx'
              · have hr := mem_pyRange _ _ _ hx'
                have hmax : (1 : Int) ≤ max 1 start0 := le_max_left 1 start0
                have hmin : min ((total_pages : Int)) end0 ≤ (total_pages : Int) :=
                  min_le_left _ _
                omega
  · rw [if_neg hdash] at h
    by_cases hemp : stripChars part = []
    · rw [if_pos hemp] at h
      injection h with h
      subst h
      exact hb
    · rw [if_neg hemp] at h
      cases hp : pyInt (stripChars part) with
      | none =>
        rw [hp] at h
        injection h with h
        subst h
        exact hb
      | some page =>
        rw [hp] at h
        dsimp only at h
        by_cases hrange : 1 ≤ page ∧ page ≤ (total_pages : Int)
        · rw [if_pos hrange] at h
          injection h with h
          subst h
          intro x hx
          rcases List.mem_append.mp hx with hx' | hx'
          · exact hb x hx'
          · rw [List.mem_singleton] at hx'
            subst hx'
            omega
        · rw [if_neg hrange] at h
          injection h with h
          subst h
          exact hb

/-- Auxiliary: the loop as a whole only accumulates indices inside
`[0, total_pages)`. -/
theorem foldTerms_bounds (total_pages : Nat) (parts : List (List Char)) :
    ∀ pages res : List Int,
    (∀ x ∈ pages, 0 ≤ x ∧ x < (total_pages : Int)) →
    foldTerms total_pages pages parts = some res →
    ∀ x ∈ res, 0 ≤ x ∧ x < (total_pages : Int) := by
  induction parts with
  | nil =>
    intro pages res hb h
    injection h with h
    subst h
    exact hb
  | cons part rest ih =>
    intro pages res hb h
    unfold foldTerms at h
    cases hp : parseTerm total_pages pages part with
    | none => rw [hp] at h; exact absurd h (by simp)
    | some pages' =>
      rw [hp] at h
      exact ih pages' res (parseTerm_bounds total_pages pages pages' part hb hp) h

/-- Claim C7: whenever `parse_page_range` returns a result, it is a
strictly ascending (hence duplicate-free) list of 0-based indices,
each inside `[0, page_count)`, for every expression and every
`page_count ≥ 1`. -/
theorem parse_page_range_invariant (s : String) (total_pages : Nat)
    (htotal : 1 ≤ total_pages) (l : List Int)
    (h : parse_page_range s total_pages = some l) :
    l.Pairwise (· < ·) ∧ ∀ x ∈ l, 0 ≤ x ∧ x < (total_pages : Int) := by
  unfold parse_page_range at h
  by_cases hs : stripChars s.data = []
  · rw [if_pos hs] at h
    injection h with h
    subst h
    constructor
    · exact List.Pairwise.map (fun (i : Nat) => (i : Int))
        (fun a b hab => by show (a : Int) < (b : Int); exact_mod_cast hab)
        (List.pairwise_lt_range total_pages)
    · intro x hx
      obtain ⟨i, hi, rfl⟩ := List.mem_map.mp hx
      rw [List.mem_range] at hi
      omega
  · rw [if_neg hs] at h
    cases hf : foldTerms total_pages [] (splitOnChar ',' s.data) with
    | none => rw [hf] at h; exact absurd h (by simp)
    | some pages =>
      rw [hf] at h
      injection h with h
      subst h
      refine ⟨pairwise_dedupSort pages, ?_⟩
      intro x hx
      exact foldTerms_bounds total_pages (splitOnChar ',' s.data) [] pages
        (by simp) hf x ((mem_dedupSort x pages).mp hx)

/-- Witness for C7 at `parse_page_range("3,1-2,1", 10) = [0, 1, 2]`. -/
theorem parse_page_range_invariant_witness :
    ([0, 1, 2] : List Int).Pairwise (· < ·) ∧
    ∀ x ∈ ([0, 1, 2] : List Int), 0 ≤ x ∧ x < (10 : Int) :=
  parse_page_range_invariant "3,1-2,1" 10 (by decide) [0, 1, 2] (by decide)

/-- Claim C6: the bitonal map sends a grayscale value to black exactly
when it is strictly below the threshold, and to white otherwise; in
particular a value equal to the threshold maps to white. -/
theorem bw_point_exclusive_bound (v t : Nat) (hv : v ≤ 255) (ht : t ≤ 255) :
    (bw_point t v = 0 ↔ v < t) ∧ (t ≤ v → bw_point t v = 255) := by
  unfold bw_point
  constructor
  · constructor
    · intro h
      by_contra hc
      rw [if_neg hc] at h
      exact absurd h (by decide)
    · intro h
      rw [if_pos h]
  · intro h
    rw [if_neg (by omega)]

/-- Witness for C6 at the boundary `v = t = 180`: the pixel maps to
white. -/
theorem bw_point_exclusive_bound_witness :
    (bw_point 180 180 = 0 ↔ 180 < 180) ∧ (180 ≤ 180 → bw_point 180 180 = 255) :=
  bw_point_exclusive_bound 180 180 (by decide) (by decide)

/-- Claim C1, counterexample: on an assembly failure the destination's
prior contents are not preserved — `convert_pdf_to_bw` opens the
destination with mode `"wb"` (truncating it) before `img2pdf.convert`
runs, so a one-page document whose page encodes fine but whose
assembly raises leaves the previously present file `[7]` truncated to
an empty file. -/
theorem convert_pdf_to_bw_truncates_on_assembly_failure :
    (convert_pdf_to_bw
        ⟨true, some 1, fun _ => some [0], fun _ => none, some [7]⟩
        none).success = false ∧
    (convert_pdf_to_bw
        ⟨true, some 1, fun _ => some [0], fun _ => none, some [7]⟩
        none).dest = some [] ∧
    (convert_pdf_to_bw
        ⟨true, some 1, fun _ => some [0], fun _ => none, some [7]⟩
        none).dest ≠
      (World.mk true (some 1) (fun _ => some [0]) (fun _ => none)
        (some [7])).dest := by
  refine ⟨rfl, rfl, by decide⟩

/-- Claim C1 (amended): while pages are rasterized, transformed and
encoded no output is written, so a failure in those stages leaves the
destination's prior contents (or absence) unchanged; the destination
is opened only after every selected page has been encoded, and the
assembled bytes are written only when assembly succeeds — but the file
is written in place rather than via a temporary path, so when assembly
itself fails the destination has already been truncated to an empty
file. -/
theorem convert_pdf_to_bw_write_discipline (w : World)
    (page_range : Option (List Nat)) (total_pages : Nat)
    (hin : w.inputExists = true) (hopen : w.openDoc = some total_pages) :
    (∀ k, processPages w (resolvePages total_pages page_range) = (none, k) →
       convert_pdf_to_bw w page_range = ⟨false, w.dest, k⟩) ∧
    (∀ imgs k, resolvePages total_pages page_range ≠ [] →
       processPages w (resolvePages total_pages page_range) = (some imgs, k) →
       (w.assemble imgs = none →
          convert_pdf_to_bw w page_range = ⟨false, some [], k⟩) ∧
       (∀ out, w.assemble imgs = some out →
          convert_pdf_to_bw w page_range = ⟨true, some out, k⟩)) := by
  unfold convert_pdf_to_bw
  rw [hin, hopen]
  dsimp only
  by_cases hpr : resolvePages total_pages page_range = []
  · constructor
    · intro k hk
      rw [hpr] at hk
      injection hk with hk1 hk2
      exact absurd hk1 (by simp [processPages])
    · intro imgs k hne
      exact absurd hpr hne
  · rw [if_neg (show ¬(true = false) by decide), if_neg hpr]
    constructor
    · intro k hk
      rw [hk]
    · intro imgs k hne hk
      rw [hk]
      dsimp only
      constructor
      · intro hasm
        rw [hasm]
      · intro out hasm
        rw [hasm]

/-- Witness for C1's amended theorem: a two-page document whose second
page fails to encode; the run fails with the destination still holding
its prior contents `[7]`. -/
theorem convert_pdf_to_bw_write_discipline_witness :
    convert_pdf_to_bw
        ⟨true, some 2, (fun p => if p = 0 then some [5] else none),
          fun _ => some [1], some [7]⟩ none = ⟨false, some [7], 2⟩ :=
  (convert_pdf_to_bw_write_discipline
      ⟨true, some 2, (fun p => if p = 0 then some [5] else none),
        fun _ => some [1], some [7]⟩ none 2 rfl rfl).1 2 (by decide)

/-- Claim C4: when the resolved page set is empty — the caller passed
an explicitly empty selection, or every supplied index is at least the
page count — the pipeline fails before any page is rasterized: the
result is a failure, zero pages were rendered, and the destination is
untouched (no silent full-document fallback). -/
theorem convert_pdf_to_bw_empty_selection (w : World) (total_pages : Nat)
    (pr : List Nat) (hin : w.inputExists = true)
    (hopen : w.openDoc = some total_pages)
    (hempty : pr.filter (fun p => p < total_pages) = []) :
    convert_pdf_to_bw w (some pr) = ⟨false, w.dest, 0⟩ := by
  unfold convert_pdf_to_bw
  rw [hin, hopen]
  dsimp only
  have hres : resolvePages total_pages (some pr) = [] := hempty
  rw [if_neg (show ¬(true = false) by decide), if_pos hres]

/-- Witness for C4: a four-page document with the selection `[7, 9]`
(all indices out of range) fails with nothing rendered and the
destination `[9]` untouched. -/
theorem convert_pdf_to_bw_empty_selection_witness :
    convert_pdf_to_bw
        ⟨true, some 4, fun _ => some [], fun _ => some [1], some [9]⟩
        (some [7, 9]) = ⟨false, some [9], 0⟩ :=
  convert_pdf_to_bw_empty_selection
    ⟨true, some 4, fun _ => some [], fun _ => some [1], some [9]⟩ 4 [7, 9]
    rfl rfl (by decide)

/-- Claim C5: the batch driver attempts every requested file in
request order — each file's recorded outcome is exactly its individual
`fileOutcome`, independent of the success or failure of earlier files,
and the results list has one entry per requested file. -/
theorem convert_next_file_attempts_all (env : BatchEnv)
    (files : List (List Char)) :
    (convert_next_file env files).1 = files.map (fileOutcome env) ∧
    (convert_next_file env files).1.length = files.length := by
  have h : (convert_next_file env files).1 = files.map (fileOutcome env) := by
    induction files with
    | nil => rfl
    | cons f rest ih =>
      by_cases hex : env.outputExists (batchOutputPath env f)
      · cases hpol : env.policy
        · by_cases hask : env.askYes (batchOutputPath env f)
          · simp [convert_next_file, fileOutcome, hex, hpol, hask, ih]
          · simp [convert_next_file, fileOutcome, hex, hpol, hask, ih]
        · simp [convert_next_file, fileOutcome, hex, hpol, ih]
        · simp [convert_next_file, fileOutcome, hex, hpol, ih]
      · simp [convert_next_file, fileOutcome, hex, ih]
  exact ⟨h, by rw [h, List.length_map]⟩

/-- Claim C9: with policy `skip` and an already-existing output path,
the batch driver records a skipped outcome for that file and advances
to the next file without running the conversion pipeline (the pipeline
invocation count is that of the remaining files alone, so no page of
the skipped file is ever rasterized). -/
theorem convert_next_file_skip_existing (env : BatchEnv)
    (input : List Char) (rest : List (List Char))
    (hpol : env.policy = OverwritePolicy.skip)
    (hex : env.outputExists (batchOutputPath env input) = true) :
    convert_next_file env (input :: rest) =
      (FileOutcome.skipped :: (convert_next_file env rest).1,
       (convert_next_file env rest).2) := by
  simp only [convert_next_file, hpol, hex, if_true]

/-- Concrete batch environment for the C9 witness: skip policy, every
output path reported as existing. -/
def skipEnv : BatchEnv :=
  ⟨[], [], false, [], OverwritePolicy.skip, (fun _ => true), (fun _ => false),
    (fun _ _ => true)⟩

/-- Witness for C9: in a two-file batch under `skipEnv`, the first
file is skipped and the driver proceeds to the rest of the batch. -/
theorem convert_next_file_skip_existing_witness :
    convert_next_file skipEnv (['a'] :: [['b']]) =
      (FileOutcome.skipped :: (convert_next_file skipEnv [['b']]).1,
       (convert_next_file skipEnv [['b']]).2) :=
  convert_next_file_skip_existing skipEnv ['a'] [['b']] rfl rfl

/-- Auxiliary: `rfindIdx` misses exactly the absent characters. -/
theorem rfindIdx_eq_none (c : Char) (l : List Char) (h : c ∉ l) :
    rfindIdx c l = none := by
  induction l with
  | nil => rfl
  | cons x xs ih =>
    rw [List.mem_cons, not_or] at h
    unfold rfindIdx
    rw [ih h.2]
    dsimp only
    rw [if_neg (fun hx => h.1 hx.symm)]

/-- Auxiliary: the last occurrence of the separator in
`l ++ c :: r` with `c ∉ r` sits at position `l.length`. -/
theorem rfindIdx_append_last (c : Char) (l r : List Char) (hr : c ∉ r) :
    rfindIdx c (l ++ c :: r) = some l.length := by
  induction l with
  | nil =>
    show rfindIdx c (c :: r) = some 0
    unfold rfindIdx
    rw [rfindIdx_eq_none c r hr]
    dsimp only
    rw [if_pos rfl]
  | cons x xs ih =>
    show rfindIdx c (x :: (xs ++ c :: r)) = some (xs.length + 1)
    unfold rfindIdx
    rw [ih]

/-- Auxiliary: stripping the single trailing slash of `d ++ "/"`
recovers `d` when `d` itself does not end in a slash. -/
theorem rstripSlash_no_trailing (d : List Char)
    (hlast : d.getLast? ≠ some '/') : rstripSlash (d ++ ['/']) = d := by
  unfold rstripSlash
  have h1 : (d ++ ['/']).reverse = '/' :: d.reverse := by simp
  rw [h1, List.dropWhile_cons, if_pos (by decide)]
  cases hd : d.reverse with
  | nil =>
    have hnil : d = [] := by simpa using congrArg List.reverse hd
    subst hnil
    simp
  | cons a t =>
    have ha : a ≠ '/' := by
      intro h
      apply hlast
      rw [← List.head?_reverse, hd, h]
      rfl
    rw [List.dropWhile_cons, if_neg (by simp [ha])]
    rw [← hd, List.reverse_reverse]

/-- Auxiliary: `posixpath.split` on a path `d ++ "/" ++ name` with a
slash-free final component and a directory part that is nonempty and
has no trailing slash returns exactly `(d, name)`. -/
theorem os_path_split_append (d name : List Char) (hd : d ≠ [])
    (hlast : d.getLast? ≠ some '/') (hname : '/' ∉ name) :
    os_path_split (d ++ '/' :: name) = (d, name) := by
  unfold os_path_split
  rw [rfindIdx_append_last '/' d name hname]
  dsimp only
  have heq : d ++ '/' :: name = (d ++ ['/']) ++ name := by simp
  have htake : (d ++ '/' :: name).take (d.length + 1) = d ++ ['/'] := by
    rw [heq]; exact List.take_left' (by simp)
  have hdrop : (d ++ '/' :: name).drop (d.length + 1) = name := by
    rw [heq]; exact List.drop_left' (by simp)
  rw [htake, hdrop]
  have hcond : (d ++ ['/'] ≠ [] ∧ ¬ (d ++ ['/']).all (fun c => c = '/')) := by
    refine ⟨by simp, ?_⟩
    intro hall
    rw [List.all_eq_true] at hall
    have hmem : d.getLast hd ∈ d ++ ['/'] :=
      List.mem_append_left _ (List.getLast_mem hd)
    have h2 := hall _ hmem
    have h3 : d.getLast hd = '/' := by simpa using h2
    apply hlast
    rw [List.getLast?_eq_getLast_of_ne_nil hd, h3]
  rw [if_pos hcond, rstripSlash_no_trailing d hlast]

/-- Auxiliary: the two halves of `posixpath.splitext` always
concatenate back to the whole name. -/
theorem os_path_splitext_concat (p : List Char) :
    (os_path_splitext p).1 ++ (os_path_splitext p).2 = p := by
  unfold os_path_splitext
  dsimp only
  split
  · split
    · exact List.take_append_drop _ p
    · simp
  · simp

/-- Auxiliary: joining a directory with no trailing slash to a
component with no leading slash inserts exactly one separator. -/
theorem os_path_join_sep (d b : List Char) (hd : d ≠ [])
    (hlast : d.getLast? ≠ some '/') (hb : b.head? ≠ some '/') :
    os_path_join d b = d ++ '/' :: b := by
  unfold os_path_join
  rw [if_neg hb, if_neg (not_or.mpr ⟨hd, hlast⟩)]

/-- Claim C10: with a blank output-directory field (or one naming the
input's own directory), a blank suffix field, and the timestamp option
off, `generate_output_path` returns the input path itself — so under
the `Overwrite` policy the conversion writes over its own input. The
input path is any `d ++ "/" ++ name` whose directory part is nonempty
without a trailing slash and whose final component contains no slash. -/
theorem generate_output_path_identity (outDirField suffixField d name : List Char)
    (hdirBlank : stripChars outDirField = [] ∨ stripChars outDirField = d)
    (hsfx : stripChars suffixField = [])
    (hd : d ≠ []) (hlast : d.getLast? ≠ some '/') (hname : '/' ∉ name) :
    generate_output_path outDirField suffixField false [] (d ++ '/' :: name) =
      d ++ '/' :: name := by
  have hsplit := os_path_split_append d name hd hlast hname
  have hhead : name.head? ≠ some '/' := by
    cases name with
    | nil => simp
    | cons a t =>
      intro h
      have ha : a = '/' := by simpa using h
      exact hname (List.mem_cons.mpr (Or.inl ha.symm))
  unfold generate_output_path
  dsimp only
  rw [hsplit]
  dsimp only
  rw [hsfx]
  have hod : (if stripChars outDirField = [] then d else stripChars outDirField)
      = d := by
    rcases hdirBlank with h | h
    · rw [if_pos h]
    · rw [h, ite_self]
  rw [hod]
  simp only [ne_eq, not_true_eq_false, if_false, Bool.false_eq_true]
  rw [os_path_splitext_concat name]
  exact os_path_join_sep d name hd hlast hhead

/-- Witness for C10 at the concrete input path `/tmp/a.pdf` with blank
settings: the computed output path is the input path. -/
theorem generate_output_path_identity_witness :
    generate_output_path [] [' '] false []
        ['/', 't', 'm', 'p', '/', 'a', '.', 'p', 'd', 'f'] =
      ['/', 't', 'm', 'p', '/', 'a', '.', 'p', 'd', 'f'] :=
  generate_output_path_identity [] [' '] ['/', 't', 'm', 'p']
    ['a', '.', 'p', 'd', 'f'] (Or.inl (by decide)) (by decide) (by decide)
    (by decide) (by decide)

end PdfBW
